import Mathlib

/-!
Verification development for the `dotlink` dotfile manager
(single source file `src/main.rs`).

The filesystem is modelled as a map from path strings to probe results,
and each Rust function that the claims mention (`expand_tilde`,
`load_cfg`, `add_one`, `unlink`, `validate`, `fix`) is translated into a
pure Lean function over that model.  Machinery from the Rust standard
library (`Path::join`, `Path::parent`, `Path::file_name`,
`path_clean::clean`, `fs::create_dir_all`, `fs::rename`,
`fs::symlink_metadata`, `Path::exists`, `fs::canonicalize`) is embedded
with explicit definitions below; symlink chains are resolved with the
operating system's bounded depth (40, the conventional ELOOP limit).
-/

/-- A filesystem path or OS string as Rust sees it: either valid UTF-8
(`Path::to_str` returns `Some`) or not (`to_str` returns `None`).  The
byte content of a non-UTF-8 string is opaque, identified by a tag. -/
inductive OsStr where
  | utf8 (s : String)
  | nonUtf8 (tag : Nat)
deriving DecidableEq

/-- Rust `Path::to_str`: succeeds exactly on valid UTF-8. -/
def to_str : OsStr → Option String
  | .utf8 s => some s
  | .nonUtf8 _ => none

/-- Split a string into `/`-separated raw chunks (structural recursion on
the character list, so the kernel can evaluate it). -/
def splitSlashAux : List Char → List Char → List (List Char)
  | [], acc => [acc.reverse]
  | c :: cs, acc =>
    if c = '/' then acc.reverse :: splitSlashAux cs []
    else splitSlashAux cs (c :: acc)

/-- The non-empty path components of a string, as `Path::components`
yields them (empty chunks from repeated or edge separators dropped). -/
def segments (s : String) : List String :=
  ((splitSlashAux s.data []).map (fun l => String.mk l)).filter (fun t => t ≠ "")

/-- Join components with `/` separators. -/
def joinSegs : List String → String
  | [] => ""
  | [s] => s
  | s :: rest => s ++ "/" ++ joinSegs rest

/-- Whether the path is absolute (begins with `/`). -/
def isAbs (s : String) : Bool :=
  match s.data with
  | c :: _ => c == '/'
  | [] => false

/-- Core loop of `path_clean::clean`: process components left to right,
dropping `.`, and letting `..` pop the previous component (kept literally
at the front of a relative path, dropped at the root of an absolute
path). First argument: is the path absolute; second: output stack in
reverse; third: remaining input components. -/
def cleanAux (abs : Bool) : List String → List String → List String
  | out, [] => out.reverse
  | out, seg :: rest =>
    if seg = "." then cleanAux abs out rest
    else if seg = ".." then
      match out with
      | [] => if abs then cleanAux abs [] rest else cleanAux abs [".."] rest
      | o :: os => if o = ".." then cleanAux abs (".." :: o :: os) rest else cleanAux abs os rest
    else cleanAux abs (seg :: out) rest

/-- Crate function `path_clean::PathClean::clean`: lexical normalisation without
touching the filesystem. -/
def clean (p : String) : String :=
  let abs := isAbs p
  let segs := cleanAux abs [] (segments p)
  if abs then "/" ++ joinSegs segs
  else if segs = [] then "." else joinSegs segs

/-- Lift of `clean` to possibly non-UTF-8 paths; a non-UTF-8 path stays an
opaque non-UTF-8 blob (cleaning cannot make its bytes valid UTF-8 in any
case exercised here). -/
def cleanOs : OsStr → OsStr
  | .utf8 s => .utf8 (clean s)
  | .nonUtf8 t => .nonUtf8 t

/-- Rust `PathBuf::join` / `Path::push` semantics: an absolute right operand
replaces the left entirely, otherwise the operands are joined with a
separator if one is not already present. -/
def rjoin (a b : String) : String :=
  if isAbs b then b
  else if a = "" then b
  else if a.data.getLast? = some '/' then a ++ b
  else a ++ "/" ++ b

/-- Rust `Path::file_name`: the final normal component (`.` components are
normalised away; a path ending in `..` or having no component has no
file name). -/
def file_name (p : String) : Option String :=
  match ((segments p).filter (fun s => s ≠ ".")).getLast? with
  | none => none
  | some s => if s = ".." then none else some s

/-- Rust `Path::parent`: the path with its final component removed; `none`
for the root or the empty path. -/
def parent (p : String) : Option String :=
  match (segments p).dropLast, segments p with
  | _, [] => none
  | init, _ :: _ =>
    if isAbs p then some ("/" ++ joinSegs init)
    else if init = [] then some "" else some (joinSegs init)

/-- The chain of prefixes of an (absolute) path, outermost first:
exactly the directories `fs::create_dir_all` visits. -/
def ancestorsAux (pre : String) : List String → List String
  | [] => []
  | s :: rest =>
    let q := pre ++ "/" ++ s
    q :: ancestorsAux q rest

/-- Ancestor prefixes of a path, e.g. `/a/b` yields `/a`, `/a/b`. -/
def ancestors (p : String) : List String :=
  ancestorsAux "" (segments p)

/-- The directories that creating the parent of `p` would visit (empty
when `p` has no parent). -/
def parentChain (p : String) : List String :=
  match parent p with
  | some q => ancestors q
  | none => []

/-- The body of Rust's `str::replace` specialised to the single-character
pattern `"~"` used by `expand_tilde`: every occurrence of `~` is replaced
by the replacement string. -/
def replaceTilde (h : String) : List Char → List Char
  | [] => []
  | c :: cs => if c = '~' then h.data ++ replaceTilde h cs else c :: replaceTilde h cs

/-- Function `expand_tilde` from `src/main.rs`: `path.to_str().unwrap()` followed
by `.replace("~", &std::env::var("HOME").expect(..))`.  The two panics —
non-UTF-8 path, and unset `HOME` (hit even when the path contains no
tilde, since the variable is read unconditionally) — are both modelled as
`none`. -/
def expand_tilde (home : Option String) (p : OsStr) : Option String :=
  match to_str p with
  | none => none
  | some s =>
    match home with
    | none => none
    | some h => some (String.mk (replaceTilde h s.data))

/-- A filesystem object: a regular file (content abstracted to a tag so
byte-for-byte preservation is expressible), a directory, or a symbolic
link storing its literal target value. -/
inductive FsObj where
  | file (content : Nat)
  | dir
  | symlink (dest : String)
deriving DecidableEq

/-- What probing a path with `lstat` observes: nothing there, an object,
or an unexpected I/O error (anything other than not-found, e.g. a
permission failure). -/
inductive ProbeRes where
  | missing
  | err
  | obj (o : FsObj)
deriving DecidableEq

/-- The filesystem: each path string probes to a result. -/
def FS : Type := String → ProbeRes

/-- Point update of the filesystem. -/
def fsSet (fs : FS) (p : String) (o : FsObj) : FS :=
  fun q => if q = p then .obj o else fs q

/-- Model of `fs::remove_file`. -/
def fsRemove (fs : FS) (p : String) : FS :=
  fun q => if q = p then .missing else fs q

/-- The two flavours of I/O error the code distinguishes:
`ErrorKind::NotFound` versus everything else. -/
inductive IOErr where
  | notFound
  | other
deriving DecidableEq

/-- How a modelled operation can fail: a Rust panic (`unwrap` / `expect`),
a fatal `exit(1)`, or a propagated I/O error (`?`). -/
inductive Fail where
  | panic
  | fatalExit
  | io (e : IOErr)
deriving DecidableEq

/-- Model of `fs::symlink_metadata`: observe the object at a path without
following a final symlink. -/
def symlink_metadata (fs : FS) (p : String) : Except IOErr FsObj :=
  match fs p with
  | .obj o => .ok o
  | .missing => .error .notFound
  | .err => .error .other

/-- Symlink-following existence check, with the OS's bounded resolution
depth; dangling links and probe errors report `false`, as
`Path::exists` does. -/
def resolveExists (fs : FS) : Nat → String → Bool
  | 0, _ => false
  | n + 1, p =>
    match fs p with
    | .obj (.symlink d) => resolveExists fs n d
    | .obj _ => true
    | _ => false

/-- Model of `Path::exists`. -/
def pexists (fs : FS) (p : String) : Bool :=
  resolveExists fs 40 p

/-- Model of `fs::canonicalize`, following symlinks at the path itself (prefix
components of the paths exercised here contain no symlinks) and
normalising lexically; fails with not-found on a missing path and with a
generic error on a probe failure or a link cycle. -/
def canonRes (fs : FS) : Nat → String → Except IOErr String
  | 0, _ => .error .other
  | n + 1, p =>
    match fs p with
    | .obj (.symlink d) => canonRes fs n d
    | .obj _ => .ok (clean p)
    | .missing => .error .notFound
    | .err => .error .other

/-- Model of `fs::canonicalize` with the conventional depth bound. -/
def canonicalize (fs : FS) (p : String) : Except IOErr String :=
  canonRes fs 40 p

/-- Loop of `fs::create_dir_all`: walk the ancestor prefixes, creating
each missing one as a directory; an existing regular file in the chain is
an error; existing directories (or links, which the real call follows)
are kept. -/
def mkdirs (fs : FS) : List String → Except IOErr FS
  | [] => .ok fs
  | q :: rest =>
    match fs q with
    | .missing => mkdirs (fsSet fs q .dir) rest
    | .obj (.file _) => .error .other
    | .obj _ => mkdirs fs rest
    | .err => .error .other

/-- Model of `fs::create_dir_all`. -/
def create_dir_all (fs : FS) (p : String) : Except IOErr FS :=
  mkdirs fs (ancestors p)

/-- Call `std::os::unix::fs::symlink original link`: creates at `link` a
symlink whose stored value is `original`; fails if anything already
occupies `link`. -/
def symlink_create (fs : FS) (original link : String) : Except IOErr FS :=
  match fs link with
  | .missing => .ok (fsSet fs link (.symlink original))
  | _ => .error .other

/-- Whether a path can serve as the parent directory of a rename
destination: a directory, or a symlink (assumed, as everywhere here, to
resolve to a directory; deeper resolution is not modelled). -/
def dirExists (fs : FS) (q : String) : Bool :=
  match fs q with
  | .obj .dir => true
  | .obj (.symlink _) => true
  | _ => false

/-- Whether the parent directory of `p` exists.  The filesystem root `/`
(and the empty parent of a bare relative component, i.e. the working
directory) always exists on a real system and is treated as present. -/
def parentExists (fs : FS) (p : String) : Bool :=
  match parent p with
  | none => true
  | some pp => if pp = "" ∨ pp = "/" then true else dirExists fs pp

/-- Model of `fs::rename src dst` (rename(2)): fails with not-found if
`src` is absent or if `dst`'s parent directory is missing (ENOENT), and
with a generic error if a directory is renamed onto an existing
non-directory (ENOTDIR) or a non-directory onto an existing directory
(EISDIR); otherwise moves the object at `src` to `dst`, overwriting a
regular file there.  Directory-onto-directory overwrite (ENOTEMPTY on a
non-empty target) is not modelled; no claim exercises it. -/
def rename (fs : FS) (src dst : String) : Except IOErr FS :=
  match fs src with
  | .missing => .error .notFound
  | .err => .error .other
  | .obj o =>
    if parentExists fs dst = false then .error .notFound
    else
      match fs dst, o with
      | .err, _ => .error .other
      | .obj (.file _), .dir => .error .other
      | .obj (.symlink _), .dir => .error .other
      | .obj .dir, .file _ => .error .other
      | .obj .dir, .symlink _ => .error .other
      | _, _ => .ok (fun q => if q = dst then .obj o else if q = src then .missing else fs q)

/-- The per-entry state table of the reconciler, classified exactly as
`fix` and `validate` observe it: the source probe first (following
symlinks), then the target probe (not following a final symlink). -/
inductive EntryState where
  | sourceMissing
  | targetMissing
  | correctLink
  | mismatchedLink
  | conflict
  | probeError
deriving DecidableEq

/-- Classification of one entry given its absolute in-store source and
its expanded target path. -/
def classify (fs : FS) (source tp : String) : EntryState :=
  if pexists fs source = false then .sourceMissing
  else
    match fs tp with
    | .obj (.symlink a) => if a = source then .correctLink else .mismatchedLink
    | .obj _ => .conflict
    | .missing => .targetMissing
    | .err => .probeError

/-- One iteration of the loop in `fix` (src/main.rs:404-470), for the
manifest entry `(key, tgt)`.  `Config::entries` supplies
`source = root.join(key.clean())` and the cleaned target; the loop
expands the tilde (a panic on a non-UTF-8 target or unset `HOME`),
skips a missing source, leaves every existing target alone (correct
link, mismatched link, conflict, or probe error — the last reported and
iteration continued), and on a missing target creates the parent
directories and the symlink.  The returned Bool is this entry's
contribution to `all_ok`. -/
def fixOne (home : Option String) (root : String) (fs : FS) (key : String) (tgt : OsStr) :
    Except Fail (FS × Bool) :=
  match expand_tilde home (cleanOs tgt) with
  | none => .error .panic
  | some tp =>
    let source := rjoin root (clean key)
    if pexists fs source = false then .ok (fs, false)
    else
      match symlink_metadata fs tp with
      | .ok (.symlink actual) =>
        if actual = source then .ok (fs, true) else .ok (fs, false)
      | .ok _ => .ok (fs, false)
      | .error .notFound =>
        if (file_name source).isNone then .error .panic
        else
          match parent tp with
          | some par =>
            match create_dir_all fs par with
            | .error e => .error (.io e)
            | .ok fs1 =>
              match symlink_create fs1 source tp with
              | .error e => .error (.io e)
              | .ok fs2 => .ok (fs2, true)
          | none =>
            match symlink_create fs source tp with
            | .error e => .error (.io e)
            | .ok fs2 => .ok (fs2, true)
      | .error .other => .ok (fs, false)

/-- The loop of `fix` over the manifest entries (one possible `HashMap`
iteration order), threading the filesystem and the `all_ok` flag; a
panic or propagated I/O error aborts the remaining entries. -/
def fixGo (home : Option String) (root : String) :
    FS → Bool → List (String × OsStr) → Except Fail (FS × Bool)
  | fs, allOk, [] => .ok (fs, allOk)
  | fs, allOk, e :: rest =>
    match fixOne home root fs e.1 e.2 with
    | .error err => .error err
    | .ok (fs', entryOk) => fixGo home root fs' (allOk && entryOk) rest

/-- Function `fix` (src/main.rs:400-479): process every entry, returning the
final filesystem and the aggregate `all_ok` flag. -/
def fix (home : Option String) (root : String) (fs : FS)
    (entries : List (String × OsStr)) : Except Fail (FS × Bool) :=
  fixGo home root fs true entries

/-- One iteration of the loop in `validate` (src/main.rs:204-253): purely
observational; a missing target is merely reported as to-be-created and
does not clear `all_ok`.  The `?` on `symlink_metadata` is reachable only
after `exists()` returned true, so in this model it is an unexpected
error propagation. -/
def validateOne (home : Option String) (root : String) (fs : FS) (key : String) (tgt : OsStr) :
    Except Fail Bool :=
  match expand_tilde home (cleanOs tgt) with
  | none => .error .panic
  | some tp =>
    let source := rjoin root (clean key)
    if pexists fs source = false then .ok false
    else if pexists fs tp = false then .ok true
    else
      match symlink_metadata fs tp with
      | .ok (.symlink actual) => if actual = source then .ok true else .ok false
      | .ok _ => .ok false
      | .error e => .error (.io e)

/-- One iteration of the entry loop in `unlink` (src/main.rs:325-379).
The tilde expansion happens before the match test, so a bad target
panics even for entries the user did not name.  A matched entry: the
`file_name` display `unwrap` (a panic when the key has no file name),
removal of the target if it is currently a symlink (a non-symlink target
is only warned about at this step), then — irrespective of that warning —
the move of the source back onto the target whenever the source exists,
and the marking of the key.  State: filesystem, keys marked for removal,
`changed` flag. -/
def unlinkStep (home : Option String) (targets : List String)
    (st : FS × List String × Bool) (kv : String × OsStr) :
    Except Fail (FS × List String × Bool) :=
  match expand_tilde home kv.2 with
  | none => .error .panic
  | some s =>
    let tp := clean s
    if targets.contains kv.1 || targets.contains tp then
      if (file_name kv.1).isNone then .error .panic
      else
        let fs1 :=
          match symlink_metadata st.1 tp with
          | .ok (.symlink _) => fsRemove st.1 tp
          | _ => st.1
        if pexists fs1 kv.1 then
          match rename fs1 kv.1 tp with
          | .error e => .error (.io e)
          | .ok fs2 => .ok (fs2, st.2.1 ++ [kv.1], true)
        else .ok (fs1, st.2.1 ++ [kv.1], true)
    else .ok st

/-- The entry loop of `unlink` over one possible iteration order of the
manifest map. -/
def unlinkGo (home : Option String) (targets : List String) :
    (FS × List String × Bool) → List (String × OsStr) → Except Fail (FS × List String × Bool)
  | st, [] => .ok st
  | st, kv :: rest =>
    match unlinkStep home targets st kv with
    | .error e => .error e
    | .ok st' => unlinkGo home targets st' rest

/-- Resolution of one user-supplied candidate path in `unlink`
(src/main.rs:305-313): canonicalize, falling back to lexical cleaning
when canonicalization fails. -/
def resolveCand (fs : FS) (p : String) : String :=
  match canonicalize fs p with
  | .ok c => c
  | .error _ => clean p

/-- Function `unlink` (src/main.rs:301-398): resolve the candidates, process every
entry, and — only when at least one entry matched — remove the marked
keys and persist the manifest once.  The result carries the final
filesystem, the final manifest, and the list of manifest snapshots
written to disk (so persistence granularity is observable). -/
def unlink (home : Option String) (fs : FS) (cfg : List (String × OsStr))
    (cands : List String) :
    Except Fail (FS × List (String × OsStr) × List (List (String × OsStr))) :=
  let targets := cands.map (resolveCand fs)
  if targets.isEmpty then .ok (fs, cfg, [])
  else
    match unlinkGo home targets (fs, [], false) cfg with
    | .error e => .error e
    | .ok (fs', keys, changed) =>
      if changed then
        let cfg' := cfg.filter (fun kv => !(keys.contains kv.1))
        .ok (fs', cfg', [cfg'])
      else .ok (fs', cfg, [])

/-- Console outcomes of one `add` candidate, mirroring the three early
returns and the two tails of `add_one`. -/
inductive AddOutcome where
  | skippedMissing
  | rejected
  | addedSkipLink
  | added
deriving DecidableEq

/-- Function `add_one` (src/main.rs:136-202): skip a missing candidate; a fatal
`exit(1)` when the canonicalized candidate has no file name; reject when
the manifest already contains the key `root.join(name)`; otherwise move
the candidate into the store, insert the entry
`(root.join(name), original path)`, create the pointing-back symlink
unless something reoccupies the original path, and persist the manifest.
The result carries the filesystem, the manifest, the persisted
snapshots, and the outcome taken. -/
def add_one (fs : FS) (cfg : List (String × OsStr)) (targetArg : String) (root : String) :
    Except Fail (FS × List (String × OsStr) × List (List (String × OsStr)) × AddOutcome) :=
  if pexists fs targetArg = false then .ok (fs, cfg, [], .skippedMissing)
  else
    match canonicalize fs targetArg with
    | .error e => .error (.io e)
    | .ok canon =>
      let target := clean canon
      match file_name target with
      | none => .error .fatalExit
      | some name =>
        let dest := rjoin root name
        if cfg.any (fun kv => kv.1 == dest) then .ok (fs, cfg, [], .rejected)
        else
          match rename fs target dest with
          | .error e => .error (.io e)
          | .ok fs1 =>
            let cfg1 := (dest, OsStr.utf8 target) :: cfg
            if pexists fs1 target || (symlink_metadata fs1 target).isOk then
              .ok (fs1, cfg1, [cfg1], .addedSkipLink)
            else
              match parent target with
              | some par =>
                match create_dir_all fs1 par with
                | .error e => .error (.io e)
                | .ok fs2 =>
                  match symlink_create fs2 dest target with
                  | .error e => .error (.io e)
                  | .ok fs3 => .ok (fs3, cfg1, [cfg1], .added)
              | none =>
                match symlink_create fs1 dest target with
                | .error e => .error (.io e)
                | .ok fs3 => .ok (fs3, cfg1, [cfg1], .added)

/-- How a run of `load_cfg` ends, as observed from outside the process. -/
inductive LoadOutcome where
  | parsed
  | ioError
  | exitWith (code : Nat)
deriving DecidableEq

/-- Function `load_cfg` (src/main.rs:126-134): propagate a read error; on content
the TOML parser rejects, print the message and call `exit(0)` — the
process terminates with status zero.  The parser itself is out of scope
and passed as a predicate on the raw content. -/
def load_cfg (read : Except IOErr String) (parses : String → Bool) : LoadOutcome :=
  match read with
  | .error _ => .ioError
  | .ok s => if parses s then .parsed else .exitWith 0

/-- Concrete filesystem for the Fix repair witness: one stored file, an
absent target. -/
def fsW1 : FS := fun p => if p = "/store/x" then .obj (.file 0) else .missing

/-- Concrete filesystem for the idempotence witness: a stored file whose
target is occupied by a directory (a conflict). -/
def fsW2 : FS := fun p =>
  if p = "/s/y" then .obj (.file 3)
  else if p = "/tt" then .obj .dir
  else .missing

/-- Concrete filesystem for the unlink-step witness: a dangling symlink
at the target, nothing in the store. -/
def fsW3 : FS := fun p => if p = "/t/w" then .obj (.symlink "/s/w") else .missing

/-- Concrete filesystem for the add witnesses: a single file at `/f`
and an existing store root directory `/r`. -/
def fsW4 : FS := fun p =>
  if p = "/f" then .obj (.file 1)
  else if p = "/r" then .obj .dir
  else .missing

/-- The filesystem after `add_one fsW4 [] "/f" "/r"` moves `/f` into the
store (intermediate state, before the symlink is created). -/
def fsW4r : FS := fun q =>
  if q = "/r/f" then .obj (.file 1)
  else if q = "/f" then .missing
  else fsW4 q

/-- Concrete filesystem for the collision-rejection witness. -/
def fsW5 : FS := fun p => if p = "/home/u/vimrc" then .obj (.file 9) else .missing

/-- Manifest for the collision-rejection witness: an entry whose key
shares the base name `vimrc` but whose original path differs. -/
def cfgW5 : List (String × OsStr) := [("/store/vimrc", .utf8 "/other/vimrc")]

/-- Manifest order and filesystem refuting whole-run Fix idempotence:
entry `(foo, /t/b)` has a missing source `/store/foo`, while repairing
entry `(x, /store/foo/link)` creates the directory `/store/foo` as a
parent — so a second run finds `foo`'s source present and mutates. -/
def fsC6 : FS := fun p =>
  if p = "/store" then .obj .dir
  else if p = "/store/x" then .obj (.file 0)
  else .missing

/-- Entry list for the idempotence counterexample, in the interfering
iteration order. -/
def esC6 : List (String × OsStr) :=
  [("foo", .utf8 "/t/b"), ("x", .utf8 "/store/foo/link")]

/-- Filesystem refuting immediate error propagation in Fix: probing the
first entry's target `/t1` fails with a non-NotFound error, while the
second entry `(b, /t2)` is repairable. -/
def fsC9 : FS := fun p =>
  if p = "/s/a" then .obj (.file 0)
  else if p = "/t1" then .err
  else if p = "/s/b" then .obj (.file 1)
  else .missing

/-- Entry list for the error-propagation counterexample: the failing
entry first. -/
def esC9 : List (String × OsStr) := [("a", .utf8 "/t1"), ("b", .utf8 "/t2")]

/-- Filesystem refuting conflict preservation in Unlink: the entry's
source `/s/f` holds one file, and a different regular file occupies the
target `/t/c`. -/
def fsC3 : FS := fun p =>
  if p = "/s/f" then .obj (.file 1)
  else if p = "/t/c" then .obj (.file 2)
  else if p = "/s" then .obj .dir
  else if p = "/t" then .obj .dir
  else .missing

/-- Manifest for the conflict-preservation counterexample. -/
def cfgC3 : List (String × OsStr) := [("/s/f", .utf8 "/t/c")]

/-- Filesystem for the spec's own add scenario: `/home/u/.vimrc` exists,
parent directories and the store root are directories. -/
def fsC4 : FS := fun p =>
  if p = "/home/u/.vimrc" then .obj (.file 7)
  else if p = "/home" then .obj .dir
  else if p = "/home/u" then .obj .dir
  else if p = "/store" then .obj .dir
  else .missing

theorem append_data (a b : String) : (a ++ b).data = a.data ++ b.data := by
  cases a; cases b; rfl

theorem rjoin_of_abs (a b : String) (h : isAbs b = true) : rjoin a b = b := by
  simp [rjoin, h]

theorem isAbs_append (a b : String) (h : isAbs a = true) : isAbs (a ++ b) = true := by
  unfold isAbs at h ⊢
  rw [append_data]
  cases hd : a.data with
  | nil => rw [hd] at h; exact absurd h (by simp)
  | cons c cs =>
    rw [hd] at h
    exact h

theorem isAbs_rjoin (a b : String) (h : isAbs a = true) : isAbs (rjoin a b) = true := by
  unfold rjoin
  by_cases hb : isAbs b = true
  · simp [hb]
  · by_cases ha : a = ""
    · subst ha; exact absurd h (by simp [isAbs])
    · by_cases hl : a.data.getLast? = some '/'
      · simp [hb, ha, hl, isAbs_append a b h]
      · simp [hb, ha, hl, isAbs_append (a ++ "/") b (isAbs_append a "/" h)]

theorem resolveExists_succ (fs : FS) (n : Nat) (p : String) :
    resolveExists fs (n + 1) p =
      match fs p with
      | .obj (.symlink d) => resolveExists fs n d
      | .obj _ => true
      | _ => false := rfl

theorem pexists_eq (fs : FS) (p : String) :
    pexists fs p =
      match fs p with
      | .obj (.symlink d) => resolveExists fs 39 d
      | .obj _ => true
      | _ => false := rfl

theorem pexists_file (fs : FS) (p : String) (c : Nat) (h : fs p = .obj (.file c)) :
    pexists fs p = true := by
  rw [pexists_eq, h]

theorem pexists_dir (fs : FS) (p : String) (h : fs p = .obj .dir) :
    pexists fs p = true := by
  rw [pexists_eq, h]

theorem pexists_missing (fs : FS) (p : String) (h : fs p = .missing) :
    pexists fs p = false := by
  rw [pexists_eq, h]

theorem pexists_err (fs : FS) (p : String) (h : fs p = .err) :
    pexists fs p = false := by
  rw [pexists_eq, h]

theorem pexists_true_obj (fs : FS) (p : String) (h : pexists fs p = true) :
    ∃ o, fs p = .obj o := by
  rw [pexists_eq] at h
  cases hp : fs p with
  | missing => rw [hp] at h; exact absurd h (by simp)
  | err => rw [hp] at h; exact absurd h (by simp)
  | obj o => exact ⟨o, rfl⟩

theorem resolveExists_mono (fs fs' : FS)
    (hpres : ∀ q o, fs q = .obj o → fs' q = .obj o) :
    ∀ n p, resolveExists fs n p = true → resolveExists fs' n p = true := by
  intro n
  induction n with
  | zero => intro p h; exact absurd h (by simp [resolveExists])
  | succ k ih =>
    intro p h
    rw [resolveExists_succ] at h ⊢
    cases hq : fs p with
    | missing => rw [hq] at h; exact absurd h (by simp)
    | err => rw [hq] at h; exact absurd h (by simp)
    | obj o =>
      rw [hpres p o hq]
      rw [hq] at h
      cases o with
      | symlink d => exact ih d h
      | file c => rfl
      | dir => rfl

theorem pexists_mono (fs fs' : FS) (p : String)
    (hpres : ∀ q o, fs q = .obj o → fs' q = .obj o)
    (h : pexists fs p = true) : pexists fs' p = true :=
  resolveExists_mono fs fs' hpres 40 p h

theorem mkdirs_changes (l : List String) (fs fs1 : FS)
    (h : mkdirs fs l = .ok fs1) :
    ∀ q, fs1 q = fs q ∨ (fs q = .missing ∧ fs1 q = .obj .dir) := by
  induction l generalizing fs with
  | nil =>
    simp only [mkdirs, Except.ok.injEq] at h
    subst h
    exact fun q => .inl rfl
  | cons a rest ih =>
    simp only [mkdirs] at h
    intro q
    cases ha : fs a with
    | missing =>
      rw [ha] at h
      have h2 := ih (fsSet fs a .dir) h q
      by_cases hq : q = a
      · subst hq
        rcases h2 with h2 | ⟨h2a, h2b⟩
        · right
          refine ⟨ha, ?_⟩
          rw [h2]
          simp [fsSet]
        · right
          exact ⟨ha, h2b⟩
      · rcases h2 with h2 | ⟨h2a, h2b⟩
        · left
          rw [h2]
          simp [fsSet, hq]
        · right
          constructor
          · rw [← h2a]; simp [fsSet, hq]
          · exact h2b
    | err =>
      rw [ha] at h
      exact Except.noConfusion h
    | obj o =>
      rw [ha] at h
      cases o with
      | file c => exact Except.noConfusion h
      | dir => exact ih fs h q
      | symlink d => exact ih fs h q

theorem mkdirs_covers (l : List String) (fs fs1 : FS)
    (h : mkdirs fs l = .ok fs1) :
    ∀ q ∈ l, fs1 q ≠ .missing := by
  induction l generalizing fs with
  | nil => intro q hq; exact absurd hq (by simp)
  | cons a rest ih =>
    intro q hq
    simp only [mkdirs] at h
    cases ha : fs a with
    | missing =>
      rw [ha] at h
      rcases List.mem_cons.mp hq with rfl | hq'
      · rcases mkdirs_changes rest _ _ h q with h2 | ⟨h2a, h2b⟩
        · rw [h2]; simp [fsSet]
        · rw [h2b]; simp
      · exact ih _ h q hq'
    | err =>
      rw [ha] at h
      exact Except.noConfusion h
    | obj o =>
      rw [ha] at h
      cases o with
      | file c => exact Except.noConfusion h
      | dir =>
        rcases List.mem_cons.mp hq with rfl | hq'
        · rcases mkdirs_changes rest _ _ h q with h2 | ⟨h2a, h2b⟩
          · rw [h2, ha]; simp
          · rw [h2b]; simp
        · exact ih fs h q hq'
      | symlink d =>
        rcases List.mem_cons.mp hq with rfl | hq'
        · rcases mkdirs_changes rest _ _ h q with h2 | ⟨h2a, h2b⟩
          · rw [h2, ha]; simp
          · rw [h2b]; simp
        · exact ih fs h q hq'

theorem mkdirs_id (l : List String) (fs : FS)
    (h : ∀ q ∈ l, fs q = .obj .dir) :
    mkdirs fs l = .ok fs := by
  induction l with
  | nil => rfl
  | cons a rest ih =>
    simp only [mkdirs]
    rw [h a (List.mem_cons_self a rest)]
    exact ih (fun q hq => h q (List.mem_cons_of_mem a hq))

theorem symlink_create_ok (fs fs' : FS) (src dst : String)
    (h : symlink_create fs src dst = .ok fs') :
    fs dst = .missing ∧ fs' = fsSet fs dst (.symlink src) := by
  unfold symlink_create at h
  cases hd : fs dst with
  | missing =>
    rw [hd] at h
    simp only [Except.ok.injEq] at h
    exact ⟨rfl, h.symm⟩
  | err => rw [hd] at h; exact Except.noConfusion h
  | obj o => rw [hd] at h; exact Except.noConfusion h

theorem rename_ok (fs fs' : FS) (src dst : String)
    (h : rename fs src dst = .ok fs') :
    ∃ o, fs src = .obj o ∧
      fs' = fun q => if q = dst then .obj o else if q = src then .missing else fs q := by
  cases hs : fs src with
  | missing => simp only [rename, hs] at h; exact Except.noConfusion h
  | err => simp only [rename, hs] at h; exact Except.noConfusion h
  | obj o =>
    simp only [rename, hs] at h
    split at h
    · exact Except.noConfusion h
    · refine ⟨o, rfl, ?_⟩
      cases hd : fs dst with
      | err =>
        rw [hd] at h
        exact Except.noConfusion h
      | missing =>
        rw [hd] at h
        exact (Except.ok.inj h).symm
      | obj od =>
        rw [hd] at h
        cases od with
        | file c2 =>
          cases o with
          | dir => exact Except.noConfusion h
          | file c1 => exact (Except.ok.inj h).symm
          | symlink d => exact (Except.ok.inj h).symm
        | symlink dd =>
          cases o with
          | dir => exact Except.noConfusion h
          | file c1 => exact (Except.ok.inj h).symm
          | symlink d => exact (Except.ok.inj h).symm
        | dir =>
          cases o with
          | dir => exact (Except.ok.inj h).symm
          | file c1 => exact Except.noConfusion h
          | symlink d => exact Except.noConfusion h

theorem rename_onto_missing (fs : FS) (src dst : String) (o : FsObj)
    (hs : fs src = .obj o)
    (hp : parentExists fs dst = true)
    (hd : fs dst = .missing) :
    rename fs src dst
      = .ok (fun q => if q = dst then .obj o else if q = src then .missing else fs q) := by
  simp only [rename, hs]
  rw [if_neg (by simp [hp])]
  rw [hd]

theorem rename_file_onto_file (fs : FS) (src dst : String) (c1 c2 : Nat)
    (hs : fs src = .obj (.file c1))
    (hp : parentExists fs dst = true)
    (hd : fs dst = .obj (.file c2)) :
    rename fs src dst
      = .ok (fun q => if q = dst then .obj (.file c1)
          else if q = src then .missing else fs q) := by
  simp only [rename, hs]
  rw [if_neg (by simp [hp])]
  rw [hd]

theorem rename_dir_onto_file (fs : FS) (src dst : String) (c2 : Nat)
    (hs : fs src = .obj .dir)
    (hp : parentExists fs dst = true)
    (hd : fs dst = .obj (.file c2)) :
    rename fs src dst = .error .other := by
  simp only [rename, hs]
  rw [if_neg (by simp [hp])]
  rw [hd]

theorem parentExists_true_of (fs fs' : FS) (p : String)
    (h : parentExists fs p = true)
    (hpres : ∀ q, fs q = .obj .dir → fs' q = fs q)
    (hpres2 : ∀ q d, fs q = .obj (.symlink d) → fs' q = fs q) :
    parentExists fs' p = true := by
  unfold parentExists at h ⊢
  cases hp : parent p with
  | none => simp only [hp]
  | some pp =>
    simp only [hp] at h ⊢
    split at h
    · rename_i hsp
      rw [if_pos hsp]
    · rename_i hsp
      rw [if_neg hsp]
      unfold dirExists at h ⊢
      cases hf : fs pp with
      | missing => rw [hf] at h; exact Bool.noConfusion h
      | err => rw [hf] at h; exact Bool.noConfusion h
      | obj o =>
        cases o with
        | file c => rw [hf] at h; exact Bool.noConfusion h
        | dir => rw [hpres pp hf, hf]
        | symlink d => rw [hpres2 pp d hf, hf]

theorem pexists_not_false (fs : FS) (p : String) (h : ¬ pexists fs p = false) :
    pexists fs p = true := by
  cases hp : pexists fs p with
  | false => exact absurd hp h
  | true => rfl

theorem classify_sourceMissing_iff (fs : FS) (s t : String) :
    classify fs s t = .sourceMissing ↔ pexists fs s = false := by
  unfold classify
  by_cases hp : pexists fs s = false
  · simp [hp]
  · have hp' := pexists_not_false fs s hp
    simp only [hp']
    cases ht : fs t with
    | missing => simp [hp']
    | err => simp [hp']
    | obj o =>
      cases o with
      | file c => simp [hp']
      | dir => simp [hp']
      | symlink a =>
        by_cases ha : a = s <;> simp [ha, hp']

theorem classify_targetMissing_iff (fs : FS) (s t : String) :
    classify fs s t = .targetMissing ↔ pexists fs s = true ∧ fs t = .missing := by
  unfold classify
  by_cases hp : pexists fs s = false
  · simp [hp]
  · have hp' := pexists_not_false fs s hp
    simp only [hp']
    cases ht : fs t with
    | missing => simp [hp', ht]
    | err => simp [hp', ht]
    | obj o =>
      cases o with
      | file c => simp [hp', ht]
      | dir => simp [hp', ht]
      | symlink a =>
        by_cases ha : a = s <;> simp [ha, hp', ht]

theorem classify_correct_iff (fs : FS) (s t : String) :
    classify fs s t = .correctLink ↔ pexists fs s = true ∧ fs t = .obj (.symlink s) := by
  unfold classify
  by_cases hp : pexists fs s = false
  · simp [hp]
  · have hp' := pexists_not_false fs s hp
    simp only [hp']
    cases ht : fs t with
    | missing => simp [hp', ht]
    | err => simp [hp', ht]
    | obj o =>
      cases o with
      | file c => simp [hp', ht]
      | dir => simp [hp', ht]
      | symlink a =>
        by_cases ha : a = s <;> simp [ha, hp', ht]

theorem classify_probeError_iff (fs : FS) (s t : String) :
    classify fs s t = .probeError ↔ pexists fs s = true ∧ fs t = .err := by
  unfold classify
  by_cases hp : pexists fs s = false
  · simp [hp]
  · have hp' := pexists_not_false fs s hp
    simp only [hp']
    cases ht : fs t with
    | missing => simp [hp', ht]
    | err => simp [hp', ht]
    | obj o =>
      cases o with
      | file c => simp [hp', ht]
      | dir => simp [hp', ht]
      | symlink a =>
        by_cases ha : a = s <;> simp [ha, hp', ht]

theorem fixOne_expand_none (home : Option String) (root : String) (fs : FS)
    (key : String) (tgt : OsStr) (h : expand_tilde home (cleanOs tgt) = none) :
    fixOne home root fs key tgt = .error .panic := by
  unfold fixOne
  rw [h]

theorem fixOne_sourceMissing (home : Option String) (root : String) (fs : FS)
    (key : String) (tgt : OsStr) (tp : String)
    (hexp : expand_tilde home (cleanOs tgt) = some tp)
    (hp : pexists fs (rjoin root (clean key)) = false) :
    fixOne home root fs key tgt = .ok (fs, false) := by
  unfold fixOne
  rw [hexp]
  simp only [hp, if_pos]

theorem fixOne_existing_target (home : Option String) (root : String) (fs : FS)
    (key : String) (tgt : OsStr) (tp : String) (o : FsObj)
    (hexp : expand_tilde home (cleanOs tgt) = some tp)
    (hp : pexists fs (rjoin root (clean key)) = true)
    (ht : fs tp = .obj o) :
    fixOne home root fs key tgt =
      .ok (fs, decide (o = .symlink (rjoin root (clean key)))) := by
  unfold fixOne
  rw [hexp]
  simp only [hp, symlink_metadata, ht]
  cases o with
  | file c => simp
  | dir => simp
  | symlink a =>
    by_cases ha : a = rjoin root (clean key) <;> simp [ha]

theorem fixOne_probeError (home : Option String) (root : String) (fs : FS)
    (key : String) (tgt : OsStr) (tp : String)
    (hexp : expand_tilde home (cleanOs tgt) = some tp)
    (hp : pexists fs (rjoin root (clean key)) = true)
    (ht : fs tp = .err) :
    fixOne home root fs key tgt = .ok (fs, false) := by
  unfold fixOne
  rw [hexp]
  simp only [hp, symlink_metadata, ht]
  rfl

theorem fixOne_repair_inv (home : Option String) (root : String) (fs fs' : FS)
    (key : String) (tgt : OsStr) (tp : String) (b : Bool)
    (hexp : expand_tilde home (cleanOs tgt) = some tp)
    (hp : pexists fs (rjoin root (clean key)) = true)
    (ht : fs tp = .missing)
    (h : fixOne home root fs key tgt = .ok (fs', b)) :
    b = true ∧
    fs' tp = .obj (.symlink (rjoin root (clean key))) ∧
    (∀ q ∈ parentChain tp, fs' q ≠ .missing) ∧
    (∀ q, q ≠ tp → fs' q = fs q ∨ (fs q = .missing ∧ fs' q = .obj .dir)) := by
  unfold fixOne at h
  rw [hexp] at h
  simp only [hp, symlink_metadata, ht] at h
  rw [if_neg (by simp)] at h
  unfold parentChain
  split at h
  · exact absurd h (by simp)
  · split at h
    · rename_i par hpar
      split at h
      · exact Except.noConfusion h
      · rename_i fs1 hc
        split at h
        · exact Except.noConfusion h
        · rename_i fs2 hs
          simp only [Except.ok.injEq, Prod.mk.injEq] at h
          obtain ⟨rfl, rfl⟩ := h
          obtain ⟨hmiss, rfl⟩ := symlink_create_ok fs1 fs2 _ tp hs
          refine ⟨rfl, by simp [fsSet], ?_, ?_⟩
          · intro q hq
            have := mkdirs_covers (ancestors par) fs fs1 hc q hq
            by_cases hqt : q = tp
            · subst hqt; simp [fsSet]
            · simp only [fsSet, hqt, if_false]
              exact this
          · intro q hq
            have := mkdirs_changes (ancestors par) fs fs1 hc q
            simp only [fsSet, hq, if_false]
            exact this
    · rename_i hpar
      split at h
      · exact Except.noConfusion h
      · rename_i fs2 hs
        simp only [Except.ok.injEq, Prod.mk.injEq] at h
        obtain ⟨rfl, rfl⟩ := h
        obtain ⟨hmiss, rfl⟩ := symlink_create_ok fs fs2 _ tp hs
        refine ⟨rfl, by simp [fsSet], by simp, ?_⟩
        intro q hq
        left
        simp [fsSet, hq]

theorem fixOne_noname (home : Option String) (root : String) (fs : FS)
    (key : String) (tgt : OsStr) (tp : String)
    (hexp : expand_tilde home (cleanOs tgt) = some tp)
    (hp : pexists fs (rjoin root (clean key)) = true)
    (ht : fs tp = .missing)
    (hn : (file_name (rjoin root (clean key))).isNone = true) :
    fixOne home root fs key tgt = .error .panic := by
  unfold fixOne
  rw [hexp]
  simp only [hp, symlink_metadata, ht, hn]
  rfl

theorem fixGo_cons (home : Option String) (root : String) (fs : FS) (allOk : Bool)
    (e : String × OsStr) (rest : List (String × OsStr)) :
    fixGo home root fs allOk (e :: rest) =
      match fixOne home root fs e.1 e.2 with
      | .error err => .error err
      | .ok (fs', entryOk) => fixGo home root fs' (allOk && entryOk) rest := rfl

theorem unlinkStep_not_matched (home : Option String) (targets : List String)
    (st : FS × List String × Bool) (kv : String × OsStr) (s : String)
    (hexp : expand_tilde home kv.2 = some s)
    (hm : (targets.contains kv.1 || targets.contains (clean s)) = false) :
    unlinkStep home targets st kv = .ok st := by
  unfold unlinkStep
  rw [hexp]
  simp only [hm]
  rfl

theorem unlinkGo_no_match (home : Option String) (targets : List String)
    (st : FS × List String × Bool) (cfg : List (String × OsStr))
    (h : ∀ kv ∈ cfg, ∃ s, expand_tilde home kv.2 = some s ∧
      (targets.contains kv.1 || targets.contains (clean s)) = false) :
    unlinkGo home targets st cfg = .ok st := by
  induction cfg generalizing st with
  | nil => rfl
  | cons kv rest ih =>
    obtain ⟨s, hs, hm⟩ := h kv (List.mem_cons_self kv rest)
    simp only [unlinkGo]
    rw [unlinkStep_not_matched home targets st kv s hs hm]
    exact ih st (fun k hk => h k (List.mem_cons_of_mem kv hk))

theorem unlinkStep_ok_changed (home : Option String) (targets : List String)
    (fs fs' : FS) (ks ks' : List String) (ch ch' : Bool) (kv : String × OsStr)
    (h : unlinkStep home targets (fs, ks, ch) kv = .ok (fs', ks', ch')) :
    (ch' = ch ∧ fs' = fs ∧ ks' = ks) ∨ ch' = true := by
  unfold unlinkStep at h
  cases hexp : expand_tilde home kv.2 with
  | none => rw [hexp] at h; exact Except.noConfusion h
  | some s =>
    rw [hexp] at h
    simp only at h
    split at h
    · split at h
      · exact Except.noConfusion h
      · split at h
        · split at h
          · exact Except.noConfusion h
          · right
            simp only [Except.ok.injEq, Prod.mk.injEq] at h
            exact h.2.2.symm
        · right
          simp only [Except.ok.injEq, Prod.mk.injEq] at h
          exact h.2.2.symm
    · left
      simp only [Except.ok.injEq, Prod.mk.injEq] at h
      exact ⟨h.2.2.symm, h.1.symm, h.2.1.symm⟩

theorem unlinkGo_preserves_true (home : Option String) (targets : List String)
    (cfg : List (String × OsStr)) (fs fs' : FS) (ks ks' : List String) (ch' : Bool)
    (h : unlinkGo home targets (fs, ks, true) cfg = .ok (fs', ks', ch')) :
    ch' = true := by
  induction cfg generalizing fs ks with
  | nil =>
    simp only [unlinkGo, Except.ok.injEq, Prod.mk.injEq] at h
    exact h.2.2.symm
  | cons kv rest ih =>
    simp only [unlinkGo] at h
    cases hst : unlinkStep home targets (fs, ks, true) kv with
    | error e => rw [hst] at h; exact Except.noConfusion h
    | ok st1 =>
      rw [hst] at h
      obtain ⟨f1, k1, c1⟩ := st1
      rcases unlinkStep_ok_changed home targets fs f1 ks k1 true c1 kv hst with
        ⟨rfl, _, _⟩ | rfl
      · exact ih f1 k1 h
      · exact ih f1 k1 h

theorem unlinkGo_changed_false (home : Option String) (targets : List String)
    (fs fs' : FS) (ks ks' : List String) (cfg : List (String × OsStr))
    (h : unlinkGo home targets (fs, ks, false) cfg = .ok (fs', ks', false)) :
    fs' = fs ∧ ks' = ks := by
  induction cfg generalizing fs ks with
  | nil =>
    simp only [unlinkGo, Except.ok.injEq, Prod.mk.injEq] at h
    exact ⟨h.1.symm, h.2.1.symm⟩
  | cons kv rest ih =>
    simp only [unlinkGo] at h
    cases hst : unlinkStep home targets (fs, ks, false) kv with
    | error e => rw [hst] at h; exact Except.noConfusion h
    | ok st1 =>
      rw [hst] at h
      obtain ⟨f1, k1, c1⟩ := st1
      cases hc1 : c1 with
      | true =>
        rw [hc1] at h
        have := unlinkGo_preserves_true home targets rest f1 fs' k1 ks' false h
        exact Bool.noConfusion this
      | false =>
        rw [hc1] at h
        rcases unlinkStep_ok_changed home targets fs f1 ks k1 false c1 kv hst with
          ⟨_, rfl, rfl⟩ | habs
        · exact ih f1 k1 h
        · rw [hc1] at habs; exact Bool.noConfusion habs

theorem replaceTilde_eq_flatten (h : String) (l : List Char) :
    replaceTilde h l = (l.map (fun c => if c = '~' then h.data else [c])).flatten := by
  induction l with
  | nil => rfl
  | cons c cs ih =>
    by_cases hc : c = '~' <;> simp [replaceTilde, hc, ih]

/-- C7: the claim says a manifest parse failure is fatal with a non-zero
exit status.  The code (src/main.rs:128-131) prints the message and calls
`exit(0)`: the process terminates with status zero, contradicting both
the claim and the code's sibling fatal paths, which use `exit(1)`. -/
theorem load_cfg_parse_error_exits_zero :
    load_cfg (.ok "entries = ]broken[") (fun _ => false) = .exitWith 0 := rfl

/-- C8 counterexample: the claim says only a leading home marker is
replaced and the rest of the path is left unchanged.  On the path `a~b`
(whose only tilde is not leading) with home `/h`, the code yields
`a/hb`, not `a~b`. -/
theorem expand_tilde_nonleading_cex :
    expand_tilde (some "/h") (.utf8 "a~b") = some "a/hb" ∧
    ("a/hb" : String) ≠ "a~b" :=
  ⟨rfl, by decide⟩

/-- C8 amended: home expansion replaces every occurrence of `~` in the
path (not only a leading marker) with the home value, and fails whenever
the home variable is unset (even when the path contains no marker). -/
theorem expand_tilde_replaces_every_tilde (hm s : String) :
    expand_tilde none (.utf8 s) = none ∧
    expand_tilde (some hm) (.utf8 s) =
      some (String.mk ((s.data.map (fun c => if c = '~' then hm.data else [c])).flatten)) := by
  constructor
  · rfl
  · show some (String.mk (replaceTilde hm s.data)) = _
    rw [replaceTilde_eq_flatten]

/-- C10: a declared target whose byte sequence is not valid UTF-8 makes
tilde expansion panic (`to_str` yields nothing to unwrap), so the fix,
validate and unlink loops all abort on such an entry — before any
per-entry reporting, and in unlink even when the entry was not named by
the user. -/
theorem nonutf8_target_panics (home : Option String) (root : String) (fs : FS)
    (key : String) (tag : Nat) (targets : List String) (st : FS × List String × Bool) :
    fixOne home root fs key (.nonUtf8 tag) = .error .panic ∧
    validateOne home root fs key (.nonUtf8 tag) = .error .panic ∧
    unlinkStep home targets st (key, .nonUtf8 tag) = .error .panic :=
  ⟨rfl, rfl, rfl⟩

/-- C5: an add candidate whose destination key (store root joined with
the candidate's base name) already occurs as a manifest key is rejected,
and both the manifest and the filesystem are left unchanged — the
collision test looks only at the destination key, so the original full
paths play no role. -/
theorem add_rejects_basename_collision
    (fs : FS) (cfg : List (String × OsStr)) (p root canon nm : String)
    (hex : pexists fs p = true)
    (hcanon : canonicalize fs p = .ok canon)
    (hname : file_name (clean canon) = some nm)
    (hdup : (cfg.any (fun kv => kv.1 == rjoin root nm)) = true) :
    add_one fs cfg p root = .ok (fs, cfg, [], .rejected) := by
  unfold add_one
  rw [if_neg (by simp [hex])]
  rw [hcanon]
  simp only [hname, hdup]
  rfl

/-- C5 witness: the candidate `/home/u/vimrc` is rejected because the key
`/store/vimrc` is already present, although the existing entry's
original path `/other/vimrc` differs. -/
theorem add_rejects_basename_collision_witness :
    add_one fsW5 cfgW5 "/home/u/vimrc" "/store" = .ok (fsW5, cfgW5, [], .rejected) :=
  add_rejects_basename_collision fsW5 cfgW5 "/home/u/vimrc" "/store"
    "/home/u/vimrc" "vimrc" rfl rfl rfl rfl

/-- C1: for an entry Fix processes without error, if the source exists
and the expanded target is absent (TargetMissing) the run creates the
needed parent directories (only ever turning absent paths into
directories) and a symlink at the target whose value is the absolute
in-store source; in every other observed state the filesystem is
returned untouched — in particular a conflicting non-symlink object and
a mismatched symlink are never overwritten. -/
theorem fix_entry_mutates_only_when_target_missing
    (home : Option String) (root : String) (fs fs' : FS) (key : String)
    (tgt : OsStr) (tp : String) (b : Bool)
    (hexp : expand_tilde home (cleanOs tgt) = some tp)
    (h : fixOne home root fs key tgt = .ok (fs', b)) :
    (classify fs (rjoin root (clean key)) tp = .targetMissing →
      fs' tp = .obj (.symlink (rjoin root (clean key))) ∧
      (∀ q ∈ parentChain tp, fs' q ≠ .missing) ∧
      (∀ q, q ≠ tp → fs' q = fs q ∨ (fs q = .missing ∧ fs' q = .obj .dir))) ∧
    (classify fs (rjoin root (clean key)) tp ≠ .targetMissing → fs' = fs) := by
  constructor
  · intro hc
    obtain ⟨hp, ht⟩ := (classify_targetMissing_iff fs _ tp).mp hc
    obtain ⟨_, h1, h2, h3⟩ := fixOne_repair_inv home root fs fs' key tgt tp b hexp hp ht h
    exact ⟨h1, h2, h3⟩
  · intro hc
    by_cases hp : pexists fs (rjoin root (clean key)) = false
    · rw [fixOne_sourceMissing home root fs key tgt tp hexp hp] at h
      simp only [Except.ok.injEq, Prod.mk.injEq] at h
      exact h.1.symm
    · have hp' := pexists_not_false fs _ hp
      cases ht : fs tp with
      | missing => exact absurd ((classify_targetMissing_iff fs _ tp).mpr ⟨hp', ht⟩) hc
      | err =>
        rw [fixOne_probeError home root fs key tgt tp hexp hp' ht] at h
        simp only [Except.ok.injEq, Prod.mk.injEq] at h
        exact h.1.symm
      | obj o =>
        rw [fixOne_existing_target home root fs key tgt tp o hexp hp' ht] at h
        simp only [Except.ok.injEq, Prod.mk.injEq] at h
        exact h.1.symm

/-- C1 witness: on the store file `/store/x` with absent target `/b`,
the repair run leaves a symlink at `/b` pointing at `/store/x`. -/
theorem fix_entry_mutates_only_when_target_missing_witness :
    fsSet fsW1 "/b" (.symlink "/store/x") "/b" = .obj (.symlink "/store/x") := by
  have h := fix_entry_mutates_only_when_target_missing (some "/h") "/store" fsW1
    (fsSet fsW1 "/b" (.symlink "/store/x")) "x" (.utf8 "/b") "/b" true rfl rfl
  exact (h.1 (by decide)).1

/-- C6 counterexample: after one Fix run over `fsC6`/`esC6` the path
`/t/b` is still absent, but a second run over the resulting state
creates a symlink there: the second run mutates the filesystem, and the
states after the first and second runs differ. -/
theorem fix_twice_not_idempotent_cex :
    ((fix (some "/h") "/store" fsC6 esC6).map (fun r => r.1 "/t/b")) = .ok .missing ∧
    (((fix (some "/h") "/store" fsC6 esC6).bind
        (fun r => fix (some "/h") "/store" r.1 esC6)).map (fun r => r.1 "/t/b"))
      = .ok (.obj (.symlink "/store/foo")) ∧
    ProbeRes.missing ≠ ProbeRes.obj (.symlink "/store/foo") :=
  ⟨rfl, rfl, by decide⟩

/-- C6 amended: Fix is idempotent entry-wise — reprocessing an entry on
the state its own successful processing produced performs no further
mutation and reports the same flag (a link just created is classified
correct) — but whole-run idempotence can fail, because creating parent
directories for one entry can bring another entry's missing source into
existence, letting a second full run repair entries the first run
skipped as SourceMissing. -/
theorem fixOne_idempotent (home : Option String) (root : String) (fs fs' : FS)
    (key : String) (tgt : OsStr) (b : Bool)
    (h : fixOne home root fs key tgt = .ok (fs', b)) :
    fixOne home root fs' key tgt = .ok (fs', b) := by
  cases hexp : expand_tilde home (cleanOs tgt) with
  | none =>
    rw [fixOne_expand_none home root fs key tgt hexp] at h
    exact Except.noConfusion h
  | some tp =>
    by_cases hp : pexists fs (rjoin root (clean key)) = false
    · rw [fixOne_sourceMissing home root fs key tgt tp hexp hp] at h
      simp only [Except.ok.injEq, Prod.mk.injEq] at h
      obtain ⟨rfl, rfl⟩ := h
      exact fixOne_sourceMissing home root fs key tgt tp hexp hp
    · have hp' := pexists_not_false fs _ hp
      cases ht : fs tp with
      | err =>
        rw [fixOne_probeError home root fs key tgt tp hexp hp' ht] at h
        simp only [Except.ok.injEq, Prod.mk.injEq] at h
        obtain ⟨rfl, rfl⟩ := h
        exact fixOne_probeError home root fs key tgt tp hexp hp' ht
      | obj o =>
        rw [fixOne_existing_target home root fs key tgt tp o hexp hp' ht] at h
        simp only [Except.ok.injEq, Prod.mk.injEq] at h
        obtain ⟨rfl, rfl⟩ := h
        exact fixOne_existing_target home root fs key tgt tp o hexp hp' ht
      | missing =>
        obtain ⟨hb, h1, h2, h3⟩ := fixOne_repair_inv home root fs fs' key tgt tp b hexp hp' ht h
        subst hb
        have hpres : ∀ q o, fs q = .obj o → fs' q = .obj o := by
          intro q o hq
          by_cases hqt : q = tp
          · subst hqt; rw [ht] at hq; exact ProbeRes.noConfusion hq
          · rcases h3 q hqt with h4 | ⟨h4a, _⟩
            · rw [h4]; exact hq
            · rw [hq] at h4a; exact ProbeRes.noConfusion h4a
        have hp2 : pexists fs' (rjoin root (clean key)) = true :=
          pexists_mono fs fs' _ hpres hp'
        rw [fixOne_existing_target home root fs' key tgt tp _ hexp hp2 h1]
        simp

/-- C6 amended witness: the conflict entry `(y, /tt)` over `fsW2`
reprocesses to the identical result. -/
theorem fixOne_idempotent_witness :
    fixOne (some "/h") "/s" fsW2 "y" (.utf8 "/tt") = .ok (fsW2, false) :=
  fixOne_idempotent (some "/h") "/s" fsW2 fsW2 "y" (.utf8 "/tt") false rfl

/-- C9 counterexample: the unexpected probe error on `/t1` is not
propagated — `fixOne` returns normally with the flag cleared — and the
following entry is still processed: the full run creates `/t2`.  This
refutes the claim that Fix stops at the first unexpected error while
probing a target. -/
theorem fix_continues_after_probe_error_cex :
    fixOne (some "/h") "/s" fsC9 "a" (.utf8 "/t1") = .ok (fsC9, false) ∧
    ((fix (some "/h") "/s" fsC9 esC9).map (fun r => (r.1 "/t2", r.2)))
      = .ok (.obj (.symlink "/s/b"), false) :=
  ⟨rfl, rfl⟩

/-- C9 amended: an unexpected I/O failure while probing a target's
metadata is reported per entry — the flag is cleared and the loop
continues with the remaining entries — whereas failures propagated with
`?` (from reading a link, creating directories, or creating the
symlink, and the expansion panics) abort the batch immediately, leaving
every later entry unprocessed. -/
theorem fix_error_propagation_boundaries :
    (∀ home root fs allOk key tgt tp rest,
      expand_tilde home (cleanOs tgt) = some tp →
      classify fs (rjoin root (clean key)) tp = .probeError →
      fixGo home root fs allOk ((key, tgt) :: rest)
        = fixGo home root fs (allOk && false) rest) ∧
    (∀ home root fs allOk err (e : String × OsStr) rest,
      fixOne home root fs e.1 e.2 = .error err →
      fixGo home root fs allOk (e :: rest) = .error err) := by
  constructor
  · intro home root fs allOk key tgt tp rest hexp hc
    obtain ⟨hp, ht⟩ := (classify_probeError_iff fs _ tp).mp hc
    rw [fixGo_cons]
    rw [fixOne_probeError home root fs key tgt tp hexp hp ht]
  · intro home root fs allOk err e rest h
    rw [fixGo_cons, h]

/-- C9 amended witness: over `fsC9` the probe error on the first entry
merely clears the flag and hands the rest of the batch on. -/
theorem fix_error_propagation_boundaries_witness :
    fixGo (some "/h") "/s" fsC9 true esC9
      = fixGo (some "/h") "/s" fsC9 (true && false) [("b", .utf8 "/t2")] :=
  fix_error_propagation_boundaries.1 (some "/h") "/s" fsC9 true "a" (.utf8 "/t1")
    "/t1" [("b", .utf8 "/t2")] rfl (by decide)

/-- C3 counterexample: the target `/t/c` holds a non-symlink object
(file 2).  Unlinking that entry warns — but then the move renames the
source onto the target, so afterwards `/t/c` holds file 1: the
conflicting object was not left in place. -/
theorem unlink_conflict_overwritten_cex :
    fsC3 "/t/c" = .obj (.file 2) ∧
    ((unlink (some "/h") fsC3 cfgC3 ["/t/c"]).map (fun r => r.1 "/t/c"))
      = .ok (.obj (.file 1)) ∧
    ProbeRes.obj (.file 1) ≠ ProbeRes.obj (.file 2) :=
  ⟨rfl, rfl, by decide⟩

/-- C3 amended: for a matched entry, a symlink at the target is removed
while a non-symlink object is not removed by that step; then,
irrespective of any conflict warning, if the source exists the code
attempts to rename it onto the target: a regular-file source replaces a
regular-file conflict, whereas renaming a directory source onto a
regular-file conflict fails (ENOTDIR) and the propagated error aborts
the batch with nothing persisted; only when the source is missing is
the target object left in place with the entry still marked.  All
marked keys are removed from the manifest, which is persisted exactly
once after the whole batch; when nothing matched (or no candidate
resolved) neither the filesystem nor the manifest changes and nothing
is persisted. -/
theorem unlink_step_and_batch_behavior :
    (∀ home targets (fs : FS) ks ch k t s d,
      expand_tilde home t = some s →
      (targets.contains k || targets.contains (clean s)) = true →
      (file_name k).isNone = false →
      fs (clean s) = .obj (.symlink d) →
      pexists (fsRemove fs (clean s)) k = false →
      unlinkStep home targets (fs, ks, ch) (k, t)
        = .ok (fsRemove fs (clean s), ks ++ [k], true)) ∧
    (∀ home targets (fs : FS) ks ch k t s d o,
      expand_tilde home t = some s →
      (targets.contains k || targets.contains (clean s)) = true →
      (file_name k).isNone = false →
      fs (clean s) = .obj (.symlink d) →
      pexists (fsRemove fs (clean s)) k = true →
      fsRemove fs (clean s) k = .obj o →
      parentExists (fsRemove fs (clean s)) (clean s) = true →
      unlinkStep home targets (fs, ks, ch) (k, t)
        = .ok (fun q => if q = clean s then .obj o
            else if q = k then .missing else fsRemove fs (clean s) q,
            ks ++ [k], true)) ∧
    (∀ home targets (fs : FS) ks ch k t s c c2,
      expand_tilde home t = some s →
      (targets.contains k || targets.contains (clean s)) = true →
      (file_name k).isNone = false →
      fs (clean s) = .obj (.file c) →
      pexists fs k = true →
      fs k = .obj (.file c2) →
      parentExists fs (clean s) = true →
      unlinkStep home targets (fs, ks, ch) (k, t)
        = .ok (fun q => if q = clean s then .obj (.file c2)
            else if q = k then .missing else fs q,
            ks ++ [k], true)) ∧
    (∀ home targets (fs : FS) ks ch k t s c rest,
      expand_tilde home t = some s →
      (targets.contains k || targets.contains (clean s)) = true →
      (file_name k).isNone = false →
      fs (clean s) = .obj (.file c) →
      pexists fs k = true →
      fs k = .obj .dir →
      parentExists fs (clean s) = true →
      unlinkStep home targets (fs, ks, ch) (k, t) = .error (.io .other) ∧
      unlinkGo home targets (fs, ks, ch) ((k, t) :: rest) = .error (.io .other)) ∧
    (∀ home targets (fs : FS) ks ch k t s c,
      expand_tilde home t = some s →
      (targets.contains k || targets.contains (clean s)) = true →
      (file_name k).isNone = false →
      fs (clean s) = .obj (.file c) →
      pexists fs k = false →
      unlinkStep home targets (fs, ks, ch) (k, t) = .ok (fs, ks ++ [k], true)) ∧
    (∀ home (fs : FS) cfg cands,
      (∀ kv ∈ cfg, ∃ s, expand_tilde home kv.2 = some s ∧
        ((cands.map (resolveCand fs)).contains kv.1
          || (cands.map (resolveCand fs)).contains (clean s)) = false) →
      unlink home fs cfg cands = .ok (fs, cfg, [])) ∧
    (∀ home (fs fs' : FS) cfg cands keys,
      unlinkGo home (cands.map (resolveCand fs)) (fs, [], false) cfg
        = .ok (fs', keys, true) →
      (cands.map (resolveCand fs)).isEmpty = false →
      unlink home fs cfg cands
        = .ok (fs', cfg.filter (fun kv => !(keys.contains kv.1)),
            [cfg.filter (fun kv => !(keys.contains kv.1))])) ∧
    (∀ home (fs fs' : FS) cfg cands cfg' pers,
      unlink home fs cfg cands = .ok (fs', cfg', pers) →
      (∀ c ∈ pers, c = cfg') ∧ pers.length ≤ 1 ∧
        (pers = [] → fs' = fs ∧ cfg' = cfg)) := by
  refine ⟨?_, ?_, ?_, ?_, ?_, ?_, ?_, ?_⟩
  · intro home targets fs ks ch k t s d hexp hm hfn ht hpx
    unfold unlinkStep
    rw [hexp]
    simp [hm, hfn, symlink_metadata, ht, hpx]
    exact fun hk => ((by simpa using hm : k ∈ targets ∨ clean s ∈ targets)).resolve_left hk
  · intro home targets fs ks ch k t s d o hexp hm hfn ht hpx ho hpe
    have hrm : fsRemove fs (clean s) (clean s) = .missing := by simp [fsRemove]
    have hrn := rename_onto_missing (fsRemove fs (clean s)) k (clean s) o ho hpe hrm
    unfold unlinkStep
    rw [hexp]
    simp [hm, hfn, symlink_metadata, ht, hpx, hrn]
    exact fun hk => ((by simpa using hm : k ∈ targets ∨ clean s ∈ targets)).resolve_left hk
  · intro home targets fs ks ch k t s c c2 hexp hm hfn ht hpx ho hpe
    have hrn := rename_file_onto_file fs k (clean s) c2 c ho hpe ht
    unfold unlinkStep
    rw [hexp]
    simp [hm, hfn, symlink_metadata, ht, hpx, hrn]
    exact fun hk => ((by simpa using hm : k ∈ targets ∨ clean s ∈ targets)).resolve_left hk
  · intro home targets fs ks ch k t s c rest hexp hm hfn ht hpx ho hpe
    have hrn := rename_dir_onto_file fs k (clean s) c ho hpe ht
    have hstep : unlinkStep home targets (fs, ks, ch) (k, t) = .error (.io .other) := by
      unfold unlinkStep
      rw [hexp]
      simp [hm, hfn, symlink_metadata, ht, hpx, hrn]
      exact fun hk => ((by simpa using hm : k ∈ targets ∨ clean s ∈ targets)).resolve_left hk
    refine ⟨hstep, ?_⟩
    simp only [unlinkGo]
    rw [hstep]
  · intro home targets fs ks ch k t s c hexp hm hfn ht hpx
    unfold unlinkStep
    rw [hexp]
    simp [hm, hfn, symlink_metadata, ht, hpx]
    exact fun hk => ((by simpa using hm : k ∈ targets ∨ clean s ∈ targets)).resolve_left hk
  · intro home fs cfg cands hno
    unfold unlink
    by_cases he : (cands.map (resolveCand fs)).isEmpty = true
    · simp only [he, if_true]
    · simp only [he, Bool.false_eq_true, if_false]
      rw [unlinkGo_no_match home (cands.map (resolveCand fs)) (fs, [], false) cfg hno]
      rfl
  · intro home fs fs' cfg cands keys hgo hne
    unfold unlink
    simp only [hne, Bool.false_eq_true, if_false]
    rw [hgo]
    rfl
  · intro home fs fs' cfg cands cfg' pers h
    unfold unlink at h
    by_cases he : (cands.map (resolveCand fs)).isEmpty = true
    · simp only [he, if_true, Except.ok.injEq, Prod.mk.injEq] at h
      obtain ⟨rfl, rfl, rfl⟩ := h
      exact ⟨by simp, by simp, fun _ => ⟨rfl, rfl⟩⟩
    · simp only [he, Bool.false_eq_true, if_false] at h
      cases hgo : unlinkGo home (cands.map (resolveCand fs)) (fs, [], false) cfg with
      | error e => rw [hgo] at h; exact Except.noConfusion h
      | ok st =>
        rw [hgo] at h
        obtain ⟨f1, k1, c1⟩ := st
        cases hc1 : c1 with
        | true =>
          rw [hc1] at h
          simp only [Except.ok.injEq, Prod.mk.injEq] at h
          obtain ⟨rfl, rfl, rfl⟩ := h
          exact ⟨by simp, by simp, by simp⟩
        | false =>
          rw [hc1] at h hgo
          simp only [Except.ok.injEq, Prod.mk.injEq] at h
          obtain ⟨rfl, rfl, rfl⟩ := h
          obtain ⟨rfl, -⟩ := unlinkGo_changed_false home _ fs _ [] k1 cfg hgo
          exact ⟨by simp, by simp, fun _ => ⟨rfl, rfl⟩⟩

/-- C3 witness: a matched entry with a dangling symlink at its target
and a missing source — the symlink is removed, the move is skipped, and
the key is still marked with the change flag set. -/
theorem unlink_step_and_batch_behavior_witness :
    unlinkStep (some "/h") ["/t/w"] (fsW3, [], false) ("/s/w", .utf8 "/t/w")
      = .ok (fsRemove fsW3 "/t/w", [] ++ ["/s/w"], true) :=
  unlink_step_and_batch_behavior.1 (some "/h") ["/t/w"] fsW3 [] false
    "/s/w" (.utf8 "/t/w") "/t/w" "/s/w" rfl (by decide) (by decide) rfl (by decide)

/-- C4 counterexample: adding `/home/u/.vimrc` with root `/store`
inserts the manifest key `/store/.vimrc` — an absolute path, not the
store-relative key (`vimrc`, or even `.vimrc`) the claim describes. -/
theorem add_key_absolute_cex :
    ((add_one fsC4 [] "/home/u/.vimrc" "/store").map (fun r => r.2.1.map Prod.fst))
      = .ok ["/store/.vimrc"] ∧
    isAbs "/store/.vimrc" = true ∧
    ("/store/.vimrc" : String) ≠ "vimrc" ∧
    ("/store/.vimrc" : String) ≠ ".vimrc" :=
  ⟨rfl, rfl, by decide, by decide⟩

/-- C4 amended: a successful add inserts the entry under the key
`root.join(basename)` — the absolute destination path, not a
store-relative one — paired with the canonicalized original path, and
persists once; the moved file sits exactly at that key, and because
`Path::join` lets an absolute right operand replace the left, joining
the root with this absolute key still yields the file's physical
location, which is how `Config::entries` keeps working. -/
theorem add_inserts_absolute_dest_key
    (fs fs' : FS) (cfg cfg' : List (String × OsStr))
    (pers : List (List (String × OsStr))) (out : AddOutcome)
    (p root canon nm : String)
    (hcanon : canonicalize fs p = .ok canon)
    (hname : file_name (clean canon) = some nm)
    (habs : isAbs root = true)
    (h : add_one fs cfg p root = .ok (fs', cfg', pers, out))
    (hout : out = .added ∨ out = .addedSkipLink) :
    cfg' = (rjoin root nm, OsStr.utf8 (clean canon)) :: cfg ∧
    pers = [cfg'] ∧
    (∃ o, fs (clean canon) = .obj o ∧ fs' (rjoin root nm) = .obj o) ∧
    isAbs (rjoin root nm) = true ∧
    rjoin root (rjoin root nm) = rjoin root nm := by
  have habs2 := isAbs_rjoin root nm habs
  have habsorb := rjoin_of_abs root (rjoin root nm) habs2
  unfold add_one at h
  split at h
  · simp only [Except.ok.injEq, Prod.mk.injEq] at h
    obtain ⟨rfl, rfl, rfl, rfl⟩ := h
    rcases hout with h' | h' <;> exact AddOutcome.noConfusion h'
  · rw [hcanon] at h
    simp only [hname] at h
    split at h
    · simp only [Except.ok.injEq, Prod.mk.injEq] at h
      obtain ⟨rfl, rfl, rfl, rfl⟩ := h
      rcases hout with h' | h' <;> exact AddOutcome.noConfusion h'
    · split at h
      · exact Except.noConfusion h
      · rename_i fs1 hren
        obtain ⟨o, hsrc, rfl⟩ := rename_ok fs fs1 (clean canon) (rjoin root nm) hren
        split at h
        · simp only [Except.ok.injEq, Prod.mk.injEq] at h
          obtain ⟨rfl, rfl, rfl, rfl⟩ := h
          exact ⟨rfl, rfl, ⟨o, hsrc, by simp⟩, habs2, habsorb⟩
        · split at h
          · rename_i par hpar
            split at h
            · exact Except.noConfusion h
            · rename_i fs2 hc2
              split at h
              · exact Except.noConfusion h
              · rename_i fs3 hs3
                simp only [Except.ok.injEq, Prod.mk.injEq] at h
                obtain ⟨rfl, rfl, rfl, rfl⟩ := h
                obtain ⟨hmiss, rfl⟩ := symlink_create_ok fs2 fs3 _ (clean canon) hs3
                have h2d : fs2 (rjoin root nm) = .obj o := by
                  rcases mkdirs_changes (ancestors par) _ fs2 hc2 (rjoin root nm) with
                    h4 | ⟨h4a, _⟩
                  · rw [h4]; simp
                  · exact absurd h4a (by simp)
                have hne : ¬ (rjoin root nm) = clean canon := by
                  intro heq
                  rw [heq, hmiss] at h2d
                  exact ProbeRes.noConfusion h2d
                refine ⟨rfl, rfl, ⟨o, hsrc, ?_⟩, habs2, habsorb⟩
                simp only [fsSet]
                rw [if_neg hne]
                exact h2d
          · rename_i hpar
            split at h
            · exact Except.noConfusion h
            · rename_i fs3 hs3
              simp only [Except.ok.injEq, Prod.mk.injEq] at h
              obtain ⟨rfl, rfl, rfl, rfl⟩ := h
              obtain ⟨hmiss, rfl⟩ := symlink_create_ok _ fs3 _ (clean canon) hs3
              have hne : ¬ (rjoin root nm) = clean canon := by
                intro heq
                rw [heq] at hmiss
                simp at hmiss
              refine ⟨rfl, rfl, ⟨o, hsrc, ?_⟩, habs2, habsorb⟩
              simp only [fsSet]
              rw [if_neg hne]
              simp

/-- C4 amended witness: adding `/f` with root `/r` inserts the absolute
key `/r/f`, and joining the root with that key absorbs into the key
itself. -/
theorem add_inserts_absolute_dest_key_witness :
    rjoin "/r" (rjoin "/r" "f") = rjoin "/r" "f" :=
  (add_inserts_absolute_dest_key fsW4 (fsSet fsW4r "/f" (.symlink "/r/f")) []
    [("/r/f", OsStr.utf8 "/f")] [[("/r/f", OsStr.utf8 "/f")]] .added
    "/f" "/r" "/f" "f" rfl rfl rfl rfl (Or.inl rfl)).2.2.2.2

theorem canonRes_succ (fs : FS) (n : Nat) (p : String) :
    canonRes fs (n + 1) p =
      match fs p with
      | .obj (.symlink d) => canonRes fs n d
      | .obj _ => .ok (clean p)
      | .missing => .error .notFound
      | .err => .error .other := rfl

theorem canonicalize_file (fs : FS) (p : String) (c : Nat)
    (h : fs p = .obj (.file c)) : canonicalize fs p = .ok (clean p) := by
  show canonRes fs (39 + 1) p = .ok (clean p)
  rw [canonRes_succ, h]

theorem canonicalize_step_symlink (fs : FS) (p d : String)
    (h : fs p = .obj (.symlink d)) : canonicalize fs p = canonRes fs 39 d := by
  show canonRes fs (39 + 1) p = _
  rw [canonRes_succ, h]

theorem canonRes39_file (fs : FS) (p : String) (c : Nat)
    (h : fs p = .obj (.file c)) : canonRes fs 39 p = .ok (clean p) := by
  show canonRes fs (38 + 1) p = .ok (clean p)
  rw [canonRes_succ, h]

theorem any_false_of (l : List (String × OsStr)) (pr : String × OsStr → Bool)
    (h : ∀ a ∈ l, pr a = false) : l.any pr = false := by
  induction l with
  | nil => rfl
  | cons a rest ih =>
    simp only [List.any_cons, h a (List.mem_cons_self a rest), Bool.false_or]
    exact ih (fun x hx => h x (List.mem_cons_of_mem a hx))

theorem filter_keep_of_all (l : List (String × OsStr)) (pr : String × OsStr → Bool)
    (h : ∀ a ∈ l, pr a = true) : l.filter pr = l := by
  induction l with
  | nil => rfl
  | cons a rest ih =>
    simp only [List.filter_cons, h a (List.mem_cons_self a rest), if_true]
    rw [ih (fun x hx => h x (List.mem_cons_of_mem a hx))]

/-- C2: adding a file and then unlinking the same path with no
intervening filesystem or manifest changes restores the file — with the
same content — at its original absolute location, removes the symlink
Add created, empties the store slot again, and removes the entry, so
that the final filesystem equals the initial one and the manifest's
entry set equals the set before Add; the run persists the manifest once
for the add and once for the unlink batch.  Hypotheses state the
no-interference reading of "no intervening changes": the path is
canonical and tilde-free, the parents of the original location and of
the destination (in particular the store root) exist as directories,
the destination slot is free, and no pre-existing entry uses or targets
the destination. -/
theorem add_unlink_roundtrip
    (home : Option String) (fs0 : FS) (cfg0 : List (String × OsStr))
    (p root nm : String) (c : Nat)
    (hfile : fs0 p = .obj (.file c))
    (hclean : clean p = p)
    (hexp : expand_tilde home (.utf8 p) = some p)
    (hname : file_name p = some nm)
    (hdest : fs0 (rjoin root nm) = .missing)
    (hne : ¬ p = rjoin root nm)
    (hdclean : clean (rjoin root nm) = rjoin root nm)
    (hdname : (file_name (rjoin root nm)).isNone = false)
    (hdpar : parentExists fs0 (rjoin root nm) = true)
    (hppx : parentExists fs0 p = true)
    (hpar : ∀ q ∈ parentChain p, fs0 q = .obj .dir)
    (hcfg0 : ∀ kv ∈ cfg0, kv.1 ≠ rjoin root nm ∧
        ∃ s, expand_tilde home kv.2 = some s ∧ clean s ≠ rjoin root nm) :
    ∃ fs1, add_one fs0 cfg0 p root
        = .ok (fs1, (rjoin root nm, OsStr.utf8 p) :: cfg0,
            [(rjoin root nm, OsStr.utf8 p) :: cfg0], .added) ∧
      unlink home fs1 ((rjoin root nm, OsStr.utf8 p) :: cfg0) [p]
        = .ok (fs0, cfg0, [cfg0]) := by
  have hpex : pexists fs0 p = true := pexists_file fs0 p c hfile
  have hcanon : canonicalize fs0 p = .ok p := by
    rw [canonicalize_file fs0 p c hfile, hclean]
  have hanyf : (cfg0.any fun kv => kv.1 == rjoin root nm) = false := by
    apply any_false_of
    intro kv hkv
    simp [(hcfg0 kv hkv).1]
  have hfrnp : (fun q => if q = rjoin root nm then ProbeRes.obj (.file c)
      else if q = p then ProbeRes.missing else fs0 q) p = ProbeRes.missing := by
    simp [hne]
  refine ⟨fsSet (fun q => if q = rjoin root nm then ProbeRes.obj (.file c)
      else if q = p then ProbeRes.missing else fs0 q) p
      (.symlink (rjoin root nm)), ?_, ?_⟩
  · unfold add_one
    rw [if_neg (by simp [hpex])]
    rw [hcanon]
    simp only [hclean, hname, hanyf, Bool.false_eq_true, if_false]
    rw [rename_onto_missing fs0 p (rjoin root nm) (.file c) hfile hdpar hdest]
    simp only []
    have hpexf : pexists (fun q => if q = rjoin root nm then ProbeRes.obj (.file c)
        else if q = p then ProbeRes.missing else fs0 q) p = false :=
      pexists_missing _ p hfrnp
    rw [if_neg (by simp [hpexf, symlink_metadata, hne, Except.isOk, Except.toBool])]
    split
    · rename_i par hpp
      have hch : ∀ q ∈ ancestors par,
          (fun q => if q = rjoin root nm then ProbeRes.obj (.file c)
            else if q = p then ProbeRes.missing else fs0 q) q = .obj .dir := by
        intro q hq
        have hd := hpar q (by rw [parentChain, hpp]; exact hq)
        have hq1 : ¬ q = rjoin root nm := by
          intro he
          rw [he, hdest] at hd
          exact ProbeRes.noConfusion hd
        have hq2 : ¬ q = p := by
          intro he
          rw [he, hfile] at hd
          simp at hd
        simp [hq1, hq2, hd]
      rw [show create_dir_all (fun q => if q = rjoin root nm then ProbeRes.obj (.file c)
            else if q = p then ProbeRes.missing else fs0 q) par
          = .ok (fun q => if q = rjoin root nm then ProbeRes.obj (.file c)
            else if q = p then ProbeRes.missing else fs0 q)
        from mkdirs_id (ancestors par) _ hch]
      simp only []
      rw [show symlink_create (fun q => if q = rjoin root nm then ProbeRes.obj (.file c)
            else if q = p then ProbeRes.missing else fs0 q) (rjoin root nm) p
          = .ok (fsSet (fun q => if q = rjoin root nm then ProbeRes.obj (.file c)
            else if q = p then ProbeRes.missing else fs0 q) p (.symlink (rjoin root nm)))
        from by unfold symlink_create; rw [hfrnp]]
    · rename_i hpp
      rw [show symlink_create (fun q => if q = rjoin root nm then ProbeRes.obj (.file c)
            else if q = p then ProbeRes.missing else fs0 q) (rjoin root nm) p
          = .ok (fsSet (fun q => if q = rjoin root nm then ProbeRes.obj (.file c)
            else if q = p then ProbeRes.missing else fs0 q) p (.symlink (rjoin root nm)))
        from by unfold symlink_create; rw [hfrnp]]
  · have hnes : ¬ (rjoin root nm) = p := fun he => hne he.symm
    have h1p : fsSet (fun q => if q = rjoin root nm then ProbeRes.obj (.file c)
        else if q = p then ProbeRes.missing else fs0 q) p
        (.symlink (rjoin root nm)) p = .obj (.symlink (rjoin root nm)) := by
      simp [fsSet]
    have h1d : fsSet (fun q => if q = rjoin root nm then ProbeRes.obj (.file c)
        else if q = p then ProbeRes.missing else fs0 q) p
        (.symlink (rjoin root nm)) (rjoin root nm) = .obj (.file c) := by
      simp [fsSet, hnes]
    have hres : resolveCand (fsSet (fun q => if q = rjoin root nm then ProbeRes.obj (.file c)
        else if q = p then ProbeRes.missing else fs0 q) p
        (.symlink (rjoin root nm))) p = rjoin root nm := by
      unfold resolveCand
      rw [canonicalize_step_symlink _ p _ h1p, canonRes39_file _ _ c h1d, hdclean]
    have hrd : fsRemove (fsSet (fun q => if q = rjoin root nm then ProbeRes.obj (.file c)
        else if q = p then ProbeRes.missing else fs0 q) p
        (.symlink (rjoin root nm))) p (rjoin root nm) = .obj (.file c) := by
      simp only [fsRemove, hnes, if_false]
      exact h1d
    have hrmp : fsRemove (fsSet (fun q => if q = rjoin root nm then ProbeRes.obj (.file c)
        else if q = p then ProbeRes.missing else fs0 q) p
        (.symlink (rjoin root nm))) p p = ProbeRes.missing := by
      simp [fsRemove]
    have hpe2 : parentExists (fsRemove (fsSet (fun q =>
        if q = rjoin root nm then ProbeRes.obj (.file c)
        else if q = p then ProbeRes.missing else fs0 q) p
        (.symlink (rjoin root nm))) p) p = true := by
      apply parentExists_true_of fs0 _ p hppx
      · intro q hq
        have hq1 : ¬ q = p := by
          intro he
          rw [he, hfile] at hq
          simp at hq
        have hq2 : ¬ q = rjoin root nm := by
          intro he
          rw [he, hdest] at hq
          exact ProbeRes.noConfusion hq
        simp [fsRemove, fsSet, hq1, hq2]
      · intro q d hq
        have hq1 : ¬ q = p := by
          intro he
          rw [he, hfile] at hq
          simp at hq
        have hq2 : ¬ q = rjoin root nm := by
          intro he
          rw [he, hdest] at hq
          exact ProbeRes.noConfusion hq
        simp [fsRemove, fsSet, hq1, hq2]
    have hstep : unlinkStep home [rjoin root nm]
        (fsSet (fun q => if q = rjoin root nm then ProbeRes.obj (.file c)
          else if q = p then ProbeRes.missing else fs0 q) p
          (.symlink (rjoin root nm)), [], false) (rjoin root nm, .utf8 p)
        = .ok (fun q => if q = p then ProbeRes.obj (.file c)
            else if q = rjoin root nm then ProbeRes.missing
            else fsRemove (fsSet (fun q => if q = rjoin root nm then ProbeRes.obj (.file c)
              else if q = p then ProbeRes.missing else fs0 q) p
              (.symlink (rjoin root nm))) p q,
            [] ++ [rjoin root nm], true) := by
      unfold unlinkStep
      rw [hexp]
      simp only [hclean]
      rw [if_pos (by simp)]
      rw [if_neg (by simp [hdname])]
      simp only [symlink_metadata, h1p]
      rw [if_pos (pexists_file _ _ c hrd)]
      rw [rename_onto_missing _ (rjoin root nm) p (.file c) hrd hpe2 hrmp]
    have hgo : unlinkGo home [rjoin root nm]
        ((fun q => if q = p then ProbeRes.obj (.file c)
            else if q = rjoin root nm then ProbeRes.missing
            else fsRemove (fsSet (fun q => if q = rjoin root nm then ProbeRes.obj (.file c)
              else if q = p then ProbeRes.missing else fs0 q) p
              (.symlink (rjoin root nm))) p q),
          [] ++ [rjoin root nm], true) cfg0
        = .ok ((fun q => if q = p then ProbeRes.obj (.file c)
            else if q = rjoin root nm then ProbeRes.missing
            else fsRemove (fsSet (fun q => if q = rjoin root nm then ProbeRes.obj (.file c)
              else if q = p then ProbeRes.missing else fs0 q) p
              (.symlink (rjoin root nm))) p q),
          [] ++ [rjoin root nm], true) := by
      apply unlinkGo_no_match
      intro kv hkv
      obtain ⟨hk1, s, hs, hcs⟩ := hcfg0 kv hkv
      exact ⟨s, hs, by simp [hk1, hcs]⟩
    have hfr2 : (fun q => if q = p then ProbeRes.obj (.file c)
        else if q = rjoin root nm then ProbeRes.missing
        else fsRemove (fsSet (fun q => if q = rjoin root nm then ProbeRes.obj (.file c)
          else if q = p then ProbeRes.missing else fs0 q) p
          (.symlink (rjoin root nm))) p q) = fs0 := by
      funext q
      by_cases hq1 : q = p
      · subst hq1
        simp [hfile]
      · by_cases hq2 : q = rjoin root nm
        · subst hq2
          simp [hq1, hdest]
        · simp [hq1, hq2, fsRemove, fsSet]
    have hfilter : ((rjoin root nm, OsStr.utf8 p) :: cfg0).filter
        (fun kv => !(([] ++ [rjoin root nm]).contains kv.1)) = cfg0 := by
      simp only [List.nil_append, List.filter_cons]
      rw [if_neg (by simp)]
      apply filter_keep_of_all
      intro kv hkv
      simp [(hcfg0 kv hkv).1]
    unfold unlink
    simp only [List.map_cons, List.map_nil, hres]
    rw [if_neg (by simp)]
    simp only [unlinkGo]
    rw [hstep]
    simp only []
    rw [hgo]
    simp only []
    simp only [hfilter, hfr2]
    rfl

/-- C2 witness: adding the file `/f` (content 1) with root `/r` and then
unlinking `/f` restores the initial filesystem and the empty manifest,
with one persist for the add and one for the unlink batch. -/
theorem add_unlink_roundtrip_witness :
    ∃ fs1, add_one fsW4 [] "/f" "/r"
        = .ok (fs1, [(rjoin "/r" "f", OsStr.utf8 "/f")],
            [[(rjoin "/r" "f", OsStr.utf8 "/f")]], .added) ∧
      unlink (some "/h") fs1 [(rjoin "/r" "f", OsStr.utf8 "/f")] ["/f"]
        = .ok (fsW4, [], [[]]) :=
  add_unlink_roundtrip (some "/h") fsW4 [] "/f" "/r" "f" 1
    rfl (by decide) rfl (by decide) (by decide) (by decide) (by decide) (by decide)
    (by decide) (by decide) (by decide) (fun kv hkv => absurd hkv (by simp))
